import Mathlib

/-!
Verification development for the `packages` loader of tsingbx/tsingbx-gogen
(file `packages/load.go`).

The development shallowly embeds the Go code:

* Go strings are Lean `String` values; the handful of `strings`, `path` and
  `path/filepath` standard-library functions used by the code are embedded as
  executable Lean functions over `List Char` (`listHasPre`, `pathExt`,
  `pathClean`, `pathJoin2`, `filepathAbs`, `filepathRel`).  The target
  platform is Unix, where the filepath separator is the slash, so
  `filepath.ToSlash` is the identity and `filepath.Join` agrees with
  `path.Join` on the inputs that occur.
* The filesystem seen by `os.ReadDir` is a tree of `Entry` values; a
  directory that cannot be read is `Entry.dirBad` (respectively a `none`
  result of `FsEnv.fsAt` for the directory named by a pattern).
* The process state consulted by `filepath.Abs` (the working directory) is
  the `cwd` field of `FsEnv`.  `filepath.Abs` fails only when the working
  directory cannot be determined, which is not modelled: `filepathAbs` is
  total.
* `go/types` packages are opaque `TypesPackage` values carrying only an
  identity and their completeness bit, which is all the loader inspects.
  Maps are association lists.
* The export-data decoder (`gcexportdata.NewReader` / `Read`) and the
  dependency loader `loadDeps` are external collaborators of the code under
  verification; they are embedded through their consumed contracts: an
  `Artifact` either decodes to a complete package or is corrupt, and
  `loadDeps` is an arbitrary function parameter producing an artifact map or
  an error.
-/

/-- Embeds `strings.HasPrefix` on the underlying character lists:
`listHasPre s p` is true when `p` is an initial segment of `s`. -/
def listHasPre : List Char → List Char → Bool
  | _, [] => true
  | [], _ :: _ => false
  | c :: cs, d :: ds => c = d && listHasPre cs ds

/-- Embeds `strings.HasPrefix pat pre`. -/
def strStarts (s p : String) : Bool :=
  listHasPre s.data p.data

/-- Embeds `strings.HasSuffix`. -/
def strEnds (s p : String) : Bool :=
  listHasPre s.data.reverse p.data.reverse

/-- Embeds the Go slice expression `s[:len(s)-n]` (all file names and
patterns involved are ASCII, so byte indexing and character indexing
agree). -/
def strDropLastN (s : String) (n : Nat) : String :=
  String.mk (s.data.take (s.data.length - n))

/-- Embeds `path.Ext`: the suffix of the name starting at its final dot,
empty when the name holds no dot.  Directory entry names never contain a
slash, so the slash guard of the Go loop cannot trigger. -/
def pathExt (name : String) : String :=
  match lastDot name.data with
  | some s => String.mk s
  | none => ""
where
  lastDot : List Char → Option (List Char)
    | [] => none
    | c :: cs =>
      match lastDot cs with
      | some s => some s
      | none => if c = '.' then some (c :: cs) else none

/-- Splits a character list at every slash, keeping empty segments,
as a helper for the embedding of `path.Clean`. -/
def splitSlash : List Char → List (List Char)
  | [] => [[]]
  | c :: cs =>
    match splitSlash cs with
    | seg :: rest => if c = '/' then [] :: seg :: rest else (c :: seg) :: rest
    | [] => [[c]]

/-- The element-processing loop of `path.Clean`: pushes ordinary segments
on a stack, drops empty and dot segments, and lets a dotdot segment pop the
stack (kept when the stack is empty and the path is not rooted, dropped
when it is rooted). -/
def cleanSegs (rooted : Bool) : List (List Char) → List (List Char) → List (List Char)
  | stack, [] => stack.reverse
  | stack, seg :: rest =>
    if seg = [] then cleanSegs rooted stack rest
    else if seg = ['.'] then cleanSegs rooted stack rest
    else if seg = ['.', '.'] then
      match stack with
      | [] => if rooted then cleanSegs rooted [] rest else cleanSegs rooted [seg] rest
      | top :: stack2 =>
        if top = ['.', '.'] then cleanSegs rooted (seg :: top :: stack2) rest
        else cleanSegs rooted stack2 rest
    else cleanSegs rooted (seg :: stack) rest

/-- Joins segments with slashes, as a helper for `path.Clean` and
`path.Join`. -/
def joinSegs : List (List Char) → List Char
  | [] => []
  | [s] => s
  | s :: rest => s ++ '/' :: joinSegs rest

/-- Embeds `path.Clean` (segment formulation of the Go algorithm): empty
path cleans to dot; otherwise split at slashes, process dot and dotdot
segments with `cleanSegs`, rejoin, restore the leading slash of a rooted
path, and return dot for an empty unrooted result. -/
def pathClean (s : String) : String :=
  if s = "" then "."
  else
    let rooted := strStarts s "/"
    let segs := cleanSegs rooted [] (splitSlash s.data)
    if rooted then String.mk ('/' :: joinSegs segs)
    else if segs = [] then "." else String.mk (joinSegs segs)

/-- Embeds `path.Join` restricted to two elements as used by the code:
empty elements are dropped and the slash-joined remainder is cleaned; the
join of two empty strings is empty. -/
def pathJoin2 (a b : String) : String :=
  if a = "" then (if b = "" then "" else pathClean b)
  else if b = "" then pathClean a
  else pathClean (a ++ "/" ++ b)

/-- Embeds `filepath.ToSlash`, the identity on Unix where the separator
already is the slash. -/
def filepathToSlash (s : String) : String := s

/-- Embeds `filepath.Abs` against an explicit working directory: an
already-rooted path is cleaned, any other path is joined to the working
directory.  The only failure mode of the Go function is a failure to read
the working directory, which the model does not produce. -/
def filepathAbs (cwd path : String) : String :=
  if strStarts path "/" then pathClean path else pathJoin2 cwd path

/-- Drops empty segments, as a helper for the embedding of
`filepath.Rel`. -/
def dropEmptySegs (l : List (List Char)) : List (List Char) :=
  l.filter (fun seg => ¬ seg = [])

/-- The suffix step of `filepath.Rel` once the common leading segments are
gone: the Go function refuses when the first remaining base segment is a
dotdot, and otherwise climbs with one dotdot per remaining base segment
before descending into the remaining target segments. -/
def relBuild (bs ts : List (List Char)) : Option (List Char) :=
  match bs with
  | [] => some (joinSegs ts)
  | b :: rest =>
    if b = ['.', '.'] then none
    else some (joinSegs (List.replicate (rest.length + 1) ['.', '.'] ++ ts))

/-- Strips the common leading segments of base and target and hands the
rests to `relBuild`, mirroring the element walk of `filepath.Rel`. -/
def relSegs : List (List Char) → List (List Char) → Option (List Char)
  | [], ts => some (joinSegs ts)
  | b :: bs, [] => relBuild (b :: bs) []
  | b :: bs, t :: ts => if b = t then relSegs bs ts else relBuild (b :: bs) (t :: ts)

/-- Embeds `filepath.Rel` (segment formulation, volume names being empty on
Unix): clean both paths, answer dot when they coincide, refuse to relate
a rooted path to an unrooted one, and otherwise compare segment lists,
mapping a base equal to dot to the empty segment list as the Go code
does. -/
def filepathRel (basepath targpath : String) : Option String :=
  let base := pathClean basepath
  let targ := pathClean targpath
  if targ = base then some "."
  else if strStarts base "/" = strStarts targ "/" then
    let bsegs := if base = "." then [] else dropEmptySegs (splitSlash base.data)
    let tsegs := dropEmptySegs (splitSlash targ.data)
    match relSegs bsegs tsegs with
    | some cs => some (String.mk cs)
    | none => none
  else none

/-- One directory entry as delivered by `os.ReadDir`: a plain file, a
readable subdirectory with its own entries in scan order, or a
subdirectory whose own `os.ReadDir` would fail. -/
inductive Entry where
  | file (name : String)
  | dirOk (name : String) (children : List Entry)
  | dirBad (name : String)

/-- The ambient process and filesystem state used by `List`: the working
directory consulted by `filepath.Abs`, and the result of `os.ReadDir` on
the directory a filesystem pattern names (`none` embeds a read failure).
Descents below that directory follow the `Entry` tree itself. -/
structure FsEnv where
  cwd : String
  fsAt : String → Option (List Entry)

/-- A `go/types` package as far as the loader observes it: an identity and
the completeness bit returned by `Complete`. -/
structure TypesPackage where
  id : Nat
  complete : Bool
  deriving DecidableEq

/-- Embeds `types.Unsafe`, the built-in package, which is complete. -/
def typesUnsafe : TypesPackage := ⟨0, true⟩

/-- Embeds the `Config` struct.  The `Fset` field only feeds the external
decoder and has no observable effect in the model, so it is omitted. -/
structure Config where
  ModRoot : String
  ModPath : String
  SupportedExts : Option (List String)
  Loaded : Option (List (String × TypesPackage))

/-- The Go zero value of `Config`, as produced by `new(Config)`. -/
def zeroConfig : Config :=
  { ModRoot := "", ModPath := "", SupportedExts := none, Loaded := none }

/-- Embeds the package-level `defaultSupportedExts` map. -/
def defaultSupportedExts : List String := [".go"]

mutual
/-- Embeds the body of the `for _, fi := range fis` loop of `doListPkgs`
for one entry, threading the accumulated package paths and the
`noSouceFile` flag.  The recursive call of the source,
`pkgPaths, _ = doListPkgs(pkgPaths, pkgPathBase+"/"+name, pat+"/"+name, exts, true)`,
is inlined here for both subdirectory shapes so that the recursion is
structural over the entry tree; the lemmas `scanEntry_dirOk_link` and
`scanEntry_dirBad_link` below restate the two branches as calls of
`doListPkgs`.  Entries whose name starts with an underscore are skipped;
a file can clear the `noSouceFile` flag when its extension is recognized;
subdirectories are entered only when scanning recursively, and an error
from the descent is discarded. -/
def scanEntry (pkgPaths : List String) (pkgPathBase : String)
    (e : Entry) (exts : List String) (recursive : Bool) (noSrc : Bool) :
    List String × Bool :=
  match e with
  | .file name =>
    if strStarts name "_" then (pkgPaths, noSrc)
    else if noSrc then (pkgPaths, !(exts.contains (pathExt name)))
    else (pkgPaths, noSrc)
  | .dirOk name children =>
    if strStarts name "_" then (pkgPaths, noSrc)
    else if recursive then
      match doListLoop pkgPaths (pkgPathBase ++ "/" ++ name) children exts true true with
      | (pkgPaths2, subNoSrc) =>
        (if subNoSrc then pkgPaths2
         else pkgPaths2 ++ [pkgPathBase ++ "/" ++ name], noSrc)
    else (pkgPaths, noSrc)
  | .dirBad _ => (pkgPaths, noSrc)
termination_by structural e

/-- Embeds the entry loop of `doListPkgs` over a list of directory
entries, starting from the given accumulated paths and `noSouceFile`
flag and returning their final values. -/
def doListLoop (pkgPaths : List String) (pkgPathBase : String)
    (entries : List Entry) (exts : List String) (recursive : Bool) (noSrc : Bool) :
    List String × Bool :=
  match entries with
  | [] => (pkgPaths, noSrc)
  | e :: rest =>
    match scanEntry pkgPaths pkgPathBase e exts recursive noSrc with
    | (pkgPaths2, noSrc2) => doListLoop pkgPaths2 pkgPathBase rest exts recursive noSrc2
termination_by structural entries
end

/-- Embeds `doListPkgs`: a failed `os.ReadDir` (the `none` case) returns
the accumulated paths together with the error; otherwise the entries are
scanned and the base package path is appended exactly when the
`noSouceFile` flag was cleared.  The second component embeds
`err != nil`. -/
def doListPkgs (pkgPaths : List String) (pkgPathBase : String)
    (fis : Option (List Entry)) (exts : List String) (recursive : Bool) :
    List String × Bool :=
  match fis with
  | none => (pkgPaths, true)
  | some entries =>
    match doListLoop pkgPaths pkgPathBase entries exts recursive true with
    | (pkgPaths2, noSrc) =>
      (if noSrc then pkgPaths2 else pkgPaths2 ++ [pkgPathBase], false)

/-- The errors `List` can produce: a pattern resolving outside the
available modules (carrying the marker-stripped pattern text interpolated
into the Go error message), or a failed `os.ReadDir` on the directory a
pattern names. -/
inductive ListErr where
  | outsideModules (pat : String)
  | readDirFail
  deriving DecidableEq

/-- The recursive-marker stripping at the top of `Config.listPkgs`: a
pattern ending in the marker loses it, and an empty remainder becomes the
rooted path. -/
def patStripped (pat : String) : String :=
  if strEnds pat "/..." then
    let p2 := strDropLastN pat 4
    if p2 = "" then "/" else p2
  else pat

/-- Embeds `Config.listPkgs`: strip the recursive marker, then either
treat the pattern as a filesystem pattern (leading dot or slash) resolved
against the module root and scanned by `doListPkgs`, or append it
verbatim as a bare package path.  A failed relativization or a relative
path escaping the module root yields the outside-available-modules error
with an empty path list, exactly as the `return nil, fmt.Errorf(...)` of
the source. -/
def Config.listPkgs (p : Config) (env : FsEnv) (pkgPaths : List String)
    (pat0 : String) (modRoot : String) : List String × Option ListErr :=
  let recursive := strEnds pat0 "/..."
  let pat := patStripped pat0
  if strStarts pat "." || strStarts pat "/" then
    let patAbs := filepathAbs env.cwd pat
    match filepathRel modRoot patAbs with
    | none => ([], some (.outsideModules pat))
    | some patRel =>
      if strStarts patRel ".." then ([], some (.outsideModules pat))
      else
        let exts := p.SupportedExts.getD defaultSupportedExts
        let pkgPathBase := pathJoin2 p.ModPath (filepathToSlash patRel)
        match doListPkgs pkgPaths pkgPathBase (env.fsAt pat) exts recursive with
        | (pp, true) => (pp, some .readDirFail)
        | (pp, false) => (pp, none)
  else (pkgPaths ++ [pat], none)

/-- Embeds the pattern loop of `List`: each pattern extends the
accumulated paths through `Config.listPkgs`, and the first error aborts
the loop, returning whatever path list that call produced together with
the error. -/
def listLoop (conf : Config) (env : FsEnv) (modRoot : String)
    (pkgPaths : List String) : List String → List String × Option ListErr
  | [] => (pkgPaths, none)
  | pat :: rest =>
    match conf.listPkgs env pkgPaths pat modRoot with
    | (pp, some e) => (pp, some e)
    | (pp, none) => listLoop conf env modRoot pp rest

/-- Embeds `List`: a nil configuration is replaced by the zero value, the
module root is made absolute (the error of `filepath.Abs` being
discarded by the source), and the patterns are processed in order. -/
def listPackages (conf : Option Config) (env : FsEnv) (pattern : List String) :
    List String × Option ListErr :=
  let c := match conf with | none => zeroConfig | some c => c
  let modRoot := filepathAbs env.cwd c.ModRoot
  listLoop c env modRoot [] pattern

/-- The content of an export-data artifact file through the consumed
contract of the decoder collaborator: a valid artifact decodes to the
complete package carrying the given identity, a corrupt one makes
`gcexportdata.NewReader` or `gcexportdata.Read` fail. -/
inductive Artifact where
  | valid (pkgId : Nat)
  | corrupt
  deriving DecidableEq

/-- The artifact files present on disk at the time of one `Import` call:
an association from file location to content, `none` on lookup embedding
a failing `os.Open`. -/
structure World where
  files : List (String × Artifact)

/-- Association-list lookup, embedding a Go map read. -/
def lookupAssoc {α : Type} : List (String × α) → String → Option α
  | [], _ => none
  | (k, v) :: rest, key => if k = key then some v else lookupAssoc rest key

/-- Association-list update, embedding a Go map assignment. -/
def insertAssoc {α : Type} : List (String × α) → String → α → List (String × α)
  | [], key, v => [(key, v)]
  | (k, w) :: rest, key, v =>
    if k = key then (k, v) :: rest else (k, w) :: insertAssoc rest key v

/-- The errors one `Import` call can produce: the `syscall.ENOENT` of an
unknown path, a failing `os.Open` on the artifact location, or a failing
decode of an opened artifact. -/
inductive ImportErr where
  | enoent
  | openFail (expfile : String)
  | decodeFail
  deriving DecidableEq

/-- Embeds the `Importer` struct: the artifact map (import path to
artifact file location) and the shared type-package cache.  The fileset
field only feeds the external decoder and is omitted. -/
structure Importer where
  pkgs : List (String × String)
  loaded : List (String × TypesPackage)
  deriving DecidableEq

/-- Embeds `Importer.loadPkgExport` together with the consumed contracts
of its collaborators: opening a missing file fails, a corrupt artifact
fails to decode, and a valid artifact decodes to a complete package that
`gcexportdata.Read` records in the shared cache under the import path and
returns. -/
def Importer.loadPkgExport (p : Importer) (w : World) (expfile pkgPath : String) :
    Importer × Except ImportErr TypesPackage :=
  match lookupAssoc w.files expfile with
  | none => (p, .error (.openFail expfile))
  | some .corrupt => (p, .error .decodeFail)
  | some (.valid i) =>
    let pkg : TypesPackage := ⟨i, true⟩
    ({ p with loaded := insertAssoc p.loaded pkgPath pkg }, .ok pkg)

/-- Embeds `Importer.Import`: a complete cached entry is returned as is;
otherwise a path present in the artifact map is loaded through
`loadPkgExport`; otherwise the call fails with `syscall.ENOENT`. -/
def Importer.Import (p : Importer) (w : World) (pkgPath : String) :
    Importer × Except ImportErr TypesPackage :=
  let fallback : Importer × Except ImportErr TypesPackage :=
    match lookupAssoc p.pkgs pkgPath with
    | some expfile => p.loadPkgExport w expfile pkgPath
    | none => (p, .error .enoent)
  match lookupAssoc p.loaded pkgPath with
  | some ret => if ret.complete then (p, .ok ret) else fallback
  | none => fallback

/-- Embeds `Config.getTempDir` (with `filepath.Join` agreeing with the
two-element path join on Unix). -/
def Config.getTempDir (p : Config) : String :=
  pathJoin2 p.ModRoot ".gop/_dummy"

/-- The errors `NewImporter` can produce: an error of `List`, or an error
of the dependency loader. -/
inductive LoadErr where
  | listErr (e : ListErr)
  | depsErr
  deriving DecidableEq

/-- Embeds `NewImporter`.  The dependency loader `loadDeps` lives outside
the verified file and is passed as the function it is contracted to be:
from a scratch directory and the resolved package paths to an artifact
map or an error.  A nil configuration is replaced by the zero value, the
patterns are resolved by `List`, the artifact map is obtained from
`loadDeps`, and the cache (the caller-supplied map or a fresh one) is
seeded with the built-in package before the importer is assembled.  The
triple mirrors the three Go results, with `none` components for the nil
importer and nil error. -/
def NewImporter (conf : Option Config) (env : FsEnv)
    (loadDeps : String → List String → Except Unit (List (String × String)))
    (pattern : List String) :
    Option Importer × List String × Option LoadErr :=
  let c := match conf with | none => zeroConfig | some c => c
  match listPackages (some c) env pattern with
  | (pkgPaths, some e) => (none, pkgPaths, some (.listErr e))
  | (pkgPaths, none) =>
    match loadDeps c.getTempDir pkgPaths with
    | .error _ => (none, pkgPaths, some .depsErr)
    | .ok pkgs =>
      let loaded := c.Loaded.getD []
      let loaded := insertAssoc loaded "unsafe" typesUnsafe
      (some { pkgs := pkgs, loaded := loaded }, pkgPaths, none)

/-- The qualification predicate of the specification for one directory
entry: it is a file (subdirectories do not count) whose name does not
start with an underscore and whose extension is recognized. -/
def entryQualifies (e : Entry) (exts : List String) : Bool :=
  match e with
  | .file name => !strStarts name "_" && exts.contains (pathExt name)
  | _ => false

/-- The qualification predicate of the specification for a whole
directory: at least one direct entry qualifies. -/
def hasDirectSource (entries : List Entry) (exts : List String) : Bool :=
  entries.any (entryQualifies · exts)


/-- Lookup after update at the same key yields the written value. -/
theorem lookupAssoc_insertAssoc_self {α : Type} (l : List (String × α)) (k : String) (v : α) :
    lookupAssoc (insertAssoc l k v) k = some v := by
  induction l with
  | nil => simp [insertAssoc, lookupAssoc]
  | cons hd rest ih =>
    rcases hd with ⟨k2, w⟩
    by_cases h : k2 = k
    · simp [insertAssoc, lookupAssoc, h]
    · simp [insertAssoc, lookupAssoc, h, ih]

/-- Unfolds the qualification predicate over a cons cell. -/
theorem hasDirectSource_cons (e : Entry) (rest : List Entry) (exts : List String) :
    hasDirectSource (e :: rest) exts
      = (entryQualifies e exts || hasDirectSource rest exts) := by
  simp [hasDirectSource]

/-- The flag component of one entry step: the incoming flag stays set
exactly when the entry does not qualify. -/
theorem scanEntry_snd (pp : List String) (base : String) (e : Entry)
    (exts : List String) (recursive noSrc : Bool) :
    (scanEntry pp base e exts recursive noSrc).2
      = (noSrc && !(entryQualifies e exts)) := by
  cases e with
  | file name =>
    by_cases hu : strStarts name "_"
    · simp [scanEntry, entryQualifies, hu]
    · cases noSrc <;> simp [scanEntry, entryQualifies, hu]
  | dirOk name children =>
    by_cases hu : strStarts name "_"
    · simp [scanEntry, entryQualifies, hu]
    · by_cases hr : recursive
      · rcases hd : doListLoop pp (base ++ "/" ++ name) children exts true true
          with ⟨pp2, sns⟩
        simp [scanEntry, entryQualifies, hu, hr, hd]
      · simp [scanEntry, entryQualifies, hu, hr]
  | dirBad name => simp [scanEntry, entryQualifies]

/-- The path component of one non-recursive entry step is untouched. -/
theorem scanEntry_nonrec_fst (pp : List String) (base : String) (e : Entry)
    (exts : List String) (noSrc : Bool) :
    (scanEntry pp base e exts false noSrc).1 = pp := by
  cases e with
  | file name =>
    by_cases hu : strStarts name "_"
    · simp [scanEntry, hu]
    · cases noSrc <;> simp [scanEntry, hu]
  | dirOk name children =>
    by_cases hu : strStarts name "_" <;> simp [scanEntry, hu]
  | dirBad name => simp [scanEntry]

/-- The final `noSouceFile` flag of the entry loop: the flag survives the
loop exactly when it came in set and no direct entry qualifies under the
specification predicate `hasDirectSource`. -/
theorem doListLoop_snd (base : String) (exts : List String) (recursive : Bool)
    (entries : List Entry) :
    ∀ (acc : List String) (noSrc : Bool),
    (doListLoop acc base entries exts recursive noSrc).2
      = (noSrc && !hasDirectSource entries exts) := by
  induction entries with
  | nil => intro acc noSrc; simp [doListLoop, hasDirectSource]
  | cons e rest ih =>
    intro acc noSrc
    rcases hs : scanEntry acc base e exts recursive noSrc with ⟨pp2, ns2⟩
    have h2 := scanEntry_snd acc base e exts recursive noSrc
    rw [hs] at h2
    replace h2 : ns2 = (noSrc && !entryQualifies e exts) := h2
    simp only [doListLoop, hs, ih, hasDirectSource_cons]
    rw [h2, Bool.not_or, ← Bool.and_assoc]

/-- A non-recursive entry loop never extends the accumulated path list. -/
theorem doListLoop_nonrec_fst (base : String) (exts : List String)
    (entries : List Entry) :
    ∀ (acc : List String) (noSrc : Bool),
    (doListLoop acc base entries exts false noSrc).1 = acc := by
  induction entries with
  | nil => intro acc noSrc; simp [doListLoop]
  | cons e rest ih =>
    intro acc noSrc
    rcases hs : scanEntry acc base e exts false noSrc with ⟨pp2, ns2⟩
    have h1 := scanEntry_nonrec_fst acc base e exts noSrc
    rw [hs] at h1
    simp only [doListLoop, hs, ih]
    exact h1

/-- A successful scan of a readable directory appends the base package
path after the loop result exactly when a direct entry qualifies. -/
theorem doListPkgs_some (acc : List String) (base : String) (entries : List Entry)
    (exts : List String) (recursive : Bool) :
    doListPkgs acc base (some entries) exts recursive
      = ((doListLoop acc base entries exts recursive true).1
          ++ (if hasDirectSource entries exts then [base] else []), false) := by
  rcases hd : doListLoop acc base entries exts recursive true with ⟨pp2, ns⟩
  have h2 := doListLoop_snd base exts recursive entries acc true
  rw [hd] at h2
  simp only [Bool.true_and] at h2
  cases hds : hasDirectSource entries exts <;> simp_all [doListPkgs, hd]

/-- Restates the readable-subdirectory branch of `scanEntry` as the
recursive call of the source, `doListPkgs` on the child directory with
the extended base path, whose error component the loop discards. -/
theorem scanEntry_dirOk_link (pp : List String) (base name : String)
    (children : List Entry) (exts : List String) (noSrc : Bool)
    (h : strStarts name "_" = false) :
    scanEntry pp base (.dirOk name children) exts true noSrc
      = ((doListPkgs pp (base ++ "/" ++ name) (some children) exts true).1, noSrc) := by
  rcases hd : doListLoop pp (base ++ "/" ++ name) children exts true true with ⟨pp2, sns⟩
  simp [scanEntry, doListPkgs, h, hd]

/-- Restates the unreadable-subdirectory branch of `scanEntry` as the
recursive call of the source: `doListPkgs` fails on it, returning the
accumulated paths unchanged, and the error is discarded. -/
theorem scanEntry_dirBad_link (pp : List String) (base name : String)
    (exts : List String) (recursive noSrc : Bool) :
    scanEntry pp base (.dirBad name) exts recursive noSrc
      = ((doListPkgs pp (base ++ "/" ++ name) none exts recursive).1, noSrc) := rfl

/-- The module tree of the end-to-end scenario of the specification: a
module root containing `a/x.go` and `b/sub/y.go` and nothing else. -/
def mTree : List Entry :=
  [ .dirOk "a" [.file "x.go"],
    .dirOk "b" [.dirOk "sub" [.file "y.go"]] ]

/-- The scenario environment: the process runs inside the module root
`/m`, whose entries `os.ReadDir(".")` delivers. -/
def mEnv : FsEnv :=
  { cwd := "/m", fsAt := fun p => if p = "." then some mTree else none }

/-- The scenario configuration: module root `/m`, module path
`example.com/m`, all optional fields nil. -/
def mConfig : Config :=
  { ModRoot := "/m", ModPath := "example.com/m", SupportedExts := none, Loaded := none }

/-- An environment in which every directory read fails. -/
def badEnv : FsEnv :=
  { cwd := "/m", fsAt := fun _ => none }

/-- A configuration whose module root is the filesystem root. -/
def rootConfig : Config :=
  { ModRoot := "/", ModPath := "example.com/m", SupportedExts := none, Loaded := none }

/-- An environment rooted at the filesystem root, with the scenario tree
as its content. -/
def rootEnv : FsEnv :=
  { cwd := "/", fsAt := fun p => if p = "/" then some mTree else none }

/-- Claim C1, counterexample: in the end-to-end scenario (module root
`/m` with import path `example.com/m`, files `a/x.go` and `b/sub/y.go`),
the pattern `./...` does not return the list
`["example.com/m", "example.com/m/b/sub"]` stated by the claim. -/
theorem c1_list_scenario_counterexample :
    listPackages (some mConfig) mEnv ["./..."]
      ≠ (["example.com/m", "example.com/m/b/sub"], none) := by decide

/-- Claim C1, amended: the scenario returns exactly
`["example.com/m/a", "example.com/m/b/sub"]` — the directories `a` and
`b/sub` qualify through their direct recognized files, while the root and
`b` have none; each qualifying directory is listed in depth-first scan
order. -/
theorem c1_list_scenario :
    listPackages (some mConfig) mEnv ["./..."]
      = (["example.com/m/a", "example.com/m/b/sub"], none) := by decide

/-- Claim C2: scanning a readable directory appends its base import path
exactly when some direct entry is a non-underscore file with a recognized
extension (`hasDirectSource`); a non-recursive scan adds nothing besides
that, so a directory without such a direct file contributes no entry. -/
theorem c2_direct_source_qualifies :
    (∀ (acc : List String) (base : String) (entries : List Entry)
       (exts : List String) (recursive : Bool),
       doListPkgs acc base (some entries) exts recursive
         = ((doListLoop acc base entries exts recursive true).1
             ++ (if hasDirectSource entries exts then [base] else []), false))
    ∧ (∀ (acc : List String) (base : String) (entries : List Entry)
         (exts : List String) (noSrc : Bool),
       (doListLoop acc base entries exts false noSrc).1 = acc)
    ∧ (∀ (acc : List String) (base : String) (entries : List Entry)
         (exts : List String),
       hasDirectSource entries exts = false →
       doListPkgs acc base (some entries) exts false = (acc, false)) := by
  refine ⟨doListPkgs_some, fun acc base entries exts noSrc =>
    doListLoop_nonrec_fst base exts entries acc noSrc, ?_⟩
  intro acc base entries exts h
  rw [doListPkgs_some, doListLoop_nonrec_fst, h]
  simp

/-- Claim C2, witness: a directory whose only entry is a subdirectory
with a recognized file inside does not itself qualify, and a
non-recursive scan of it contributes nothing. -/
theorem c2_direct_source_qualifies_witness :
    hasDirectSource [.dirOk "sub" [.file "y.go"]] [".go"] = false
    ∧ doListPkgs ["q"] "example.com/m/b" (some [.dirOk "sub" [.file "y.go"]]) [".go"] false
        = (["q"], false) :=
  ⟨by decide,
   c2_direct_source_qualifies.2.2 ["q"] "example.com/m/b"
     [.dirOk "sub" [.file "y.go"]] [".go"] (by decide)⟩

/-- A pattern whose stripped form is a filesystem pattern and whose
relativization against the module root fails or escapes it makes
`Config.listPkgs` drop the accumulated paths and report the
outside-available-modules error. -/
theorem listPkgs_escape (conf : Config) (env : FsEnv) (pkgPaths : List String)
    (pat0 modRoot : String)
    (hfs : (strStarts (patStripped pat0) "." || strStarts (patStripped pat0) "/") = true)
    (hesc : filepathRel modRoot (filepathAbs env.cwd (patStripped pat0)) = none
      ∨ ∃ r, filepathRel modRoot (filepathAbs env.cwd (patStripped pat0)) = some r
             ∧ strStarts r ".." = true) :
    conf.listPkgs env pkgPaths pat0 modRoot
      = ([], some (.outsideModules (patStripped pat0))) := by
  rcases hesc with h | ⟨r, hr, hesc⟩
  · simp [Config.listPkgs, hfs, h]
  · simp [Config.listPkgs, hfs, hr, hesc]

/-- Once a pattern fails with an empty result list and an error, the
pattern loop of `List` returns exactly that, whatever was accumulated by
the successfully processed patterns before it. -/
theorem listLoop_abort (conf : Config) (env : FsEnv) (modRoot : String)
    (pat : String) (post : List String) (E : ListErr)
    (hpat : ∀ s, conf.listPkgs env s pat modRoot = ([], some E)) :
    ∀ (pre : List String) (start acc : List String),
    listLoop conf env modRoot start pre = (acc, none) →
    listLoop conf env modRoot start (pre ++ pat :: post) = ([], some E) := by
  intro pre
  induction pre with
  | nil =>
    intro start acc hpre
    simp only [List.nil_append, listLoop, hpat start]
  | cons q pre2 ih =>
    intro start acc hpre
    rcases hq : conf.listPkgs env start q modRoot with ⟨pp, eOpt⟩
    cases eOpt with
    | some e =>
      simp only [listLoop, hq] at hpre
      simp at hpre
    | none =>
      simp only [listLoop, hq] at hpre
      simp only [List.cons_append, listLoop, hq]
      exact ih pp acc hpre

/-- Claim C5, counterexample: with the pattern list `["a", "../x"]` the
first pattern accumulates `"a"`, the second escapes the module root, and
`List` returns the empty list with the error — the accumulated `"a"` is
not returned alongside the error as the claim states. -/
theorem c5_escape_counterexample :
    listPackages (some mConfig) mEnv ["a", "../x"]
      = ([], some (.outsideModules "../x"))
    ∧ ([] : List String) ≠ ["a"] := by
  refine ⟨by decide, by decide⟩

/-- Claim C5, amended: when a filesystem pattern resolves outside the
module root (relativization fails, or the relative path starts with the
parent-directory marker), `List` fails with the outside-available-modules
error naming the marker-stripped pattern, aborts the whole call, and
returns an empty path list — the paths accumulated from earlier patterns
are discarded, not returned alongside the error. -/
theorem c5_escape_aborts (conf : Config) (env : FsEnv) (acc : List String)
    (pre : List String) (pat0 : String) (post : List String)
    (hpre : listLoop conf env (filepathAbs env.cwd conf.ModRoot) [] pre = (acc, none))
    (hfs : (strStarts (patStripped pat0) "." || strStarts (patStripped pat0) "/") = true)
    (hesc : filepathRel (filepathAbs env.cwd conf.ModRoot)
              (filepathAbs env.cwd (patStripped pat0)) = none
      ∨ ∃ r, filepathRel (filepathAbs env.cwd conf.ModRoot)
               (filepathAbs env.cwd (patStripped pat0)) = some r
             ∧ strStarts r ".." = true) :
    listPackages (some conf) env (pre ++ pat0 :: post)
      = ([], some (.outsideModules (patStripped pat0))) := by
  simp only [listPackages]
  exact listLoop_abort conf env (filepathAbs env.cwd conf.ModRoot) pat0 post
    (.outsideModules (patStripped pat0))
    (fun s => listPkgs_escape conf env s pat0 (filepathAbs env.cwd conf.ModRoot) hfs hesc)
    pre [] acc hpre

/-- Claim C5, witness for the amended statement at the counterexample
scenario. -/
theorem c5_escape_aborts_witness :
    listPackages (some mConfig) mEnv (["a"] ++ "../x" :: [])
      = ([], some (.outsideModules (patStripped "../x"))) :=
  c5_escape_aborts mConfig mEnv ["a"] ["a"] "../x" []
    (by decide) (by decide) (Or.inr ⟨"../x", by decide, by decide⟩)

/-- Claim C6, counterexample: the pattern `a/...` starts with neither dot
nor slash, yet `List` does not append it unchanged — the recursive marker
is stripped first, so `a` is what gets appended. -/
theorem c6_bare_pattern_counterexample :
    strStarts "a/..." "." = false
    ∧ strStarts "a/..." "/" = false
    ∧ listPackages (some mConfig) mEnv ["a/..."] = (["a"], none)
    ∧ ((["a"], (none : Option ListErr)) ≠ (["a/..."], none)) := by
  refine ⟨by decide, by decide, by decide, by decide⟩

/-- Claim C6, amended: a pattern that does not end with the recursive
marker and starts with neither dot nor slash is appended verbatim by
`Config.listPkgs`, and `List` on it alone returns exactly that string —
with no filesystem access, the result being the same for every
environment. -/
theorem c6_bare_pattern_verbatim (conf : Config) (env : FsEnv)
    (pkgPaths : List String) (pat modRoot : String)
    (hrec : strEnds pat "/..." = false)
    (hdot : strStarts pat "." = false)
    (hslash : strStarts pat "/" = false) :
    conf.listPkgs env pkgPaths pat modRoot = (pkgPaths ++ [pat], none)
    ∧ listPackages (some conf) env [pat] = ([pat], none) := by
  have hp : patStripped pat = pat := by simp [patStripped, hrec]
  have h1 : ∀ (s : List String) (mr : String),
      conf.listPkgs env s pat mr = (s ++ [pat], none) := by
    intro s mr
    simp [Config.listPkgs, hp, hdot, hslash]
  refine ⟨h1 pkgPaths modRoot, ?_⟩
  simp only [listPackages, listLoop, h1]
  simp

/-- Claim C6, witness for the amended statement on the bare pattern
`foo`. -/
theorem c6_bare_pattern_verbatim_witness :
    mConfig.listPkgs mEnv ["x"] "foo" "/m" = (["x", "foo"], none)
    ∧ listPackages (some mConfig) mEnv ["foo"] = (["foo"], none) :=
  c6_bare_pattern_verbatim mConfig mEnv ["x"] "foo" "/m"
    (by decide) (by decide) (by decide)

/-- Claim C7, counterexample: with module root `/m` (and the scenario
tree present), the pattern `/...` is not treated as the module root — the
call fails with the outside-available-modules error instead of scanning
the module root recursively. -/
theorem c7_rooted_pattern_counterexample :
    listPackages (some mConfig) mEnv ["/..."]
      = ([], some (.outsideModules "/"))
    ∧ some (ListErr.outsideModules "/") ≠ (none : Option ListErr) := by
  refine ⟨by decide, by decide⟩

/-- Claim C7, amended: a pattern that is exactly the recursive marker is
stripped to the absolute filesystem root, not to the module root: for
module root `/m` every such call fails as outside available modules,
while for a module root that resolves to the filesystem root the pattern
does scan the module root recursively (here yielding the scenario
packages). -/
theorem c7_rooted_pattern :
    patStripped "/..." = "/"
    ∧ (∀ (conf : Config) (env : FsEnv) (pkgPaths : List String),
         conf.listPkgs env pkgPaths "/..." "/m" = ([], some (.outsideModules "/")))
    ∧ listPackages (some rootConfig) rootEnv ["/..."]
        = (["example.com/m/a", "example.com/m/b/sub"], none) := by
  refine ⟨by decide, fun conf env pkgPaths => rfl, by decide⟩

/-- Claim C8: a non-recursive filesystem pattern naming an unreadable
directory makes `Config.listPkgs` (and with it `List`) return the
directory-read error, while an unreadable subdirectory met during a
recursive descent is swallowed — the entry loop behaves as if the entry
were absent, contributing no paths and no error. -/
theorem c8_read_failure :
    (∀ (conf : Config) (env : FsEnv) (pkgPaths : List String) (pat modRoot r : String),
       strEnds pat "/..." = false →
       (strStarts pat "." || strStarts pat "/") = true →
       filepathRel modRoot (filepathAbs env.cwd pat) = some r →
       strStarts r ".." = false →
       env.fsAt pat = none →
       conf.listPkgs env pkgPaths pat modRoot = (pkgPaths, some .readDirFail))
    ∧ (∀ (acc : List String) (base : String) (pre post : List Entry)
         (name : String) (exts : List String) (noSrc : Bool),
       doListLoop acc base (pre ++ .dirBad name :: post) exts true noSrc
         = doListLoop acc base (pre ++ post) exts true noSrc) := by
  constructor
  · intro conf env pkgPaths pat modRoot r hrec hfs hrel hesc hread
    have hp : patStripped pat = pat := by simp [patStripped, hrec]
    simp [Config.listPkgs, hp, hfs, hrel, hesc, hread, doListPkgs]
  · intro acc base pre post name exts noSrc
    induction pre generalizing acc noSrc with
    | nil => simp only [List.nil_append, doListLoop, scanEntry]
    | cons e pre2 ih =>
      rcases hs : scanEntry acc base e exts true noSrc with ⟨pp2, ns2⟩
      simp only [List.cons_append, doListLoop, hs]
      exact ih pp2 ns2

/-- Claim C8, witness: the non-recursive pattern `./a` over an
environment in which every directory read fails produces the read error
while keeping the accumulated paths. -/
theorem c8_read_failure_witness :
    mConfig.listPkgs badEnv ["z"] "./a" "/m" = (["z"], some .readDirFail) :=
  c8_read_failure.1 mConfig badEnv ["z"] "./a" "/m" "a"
    (by decide) (by decide) (by decide) (by decide) rfl

/-- A complete cache entry is returned as is, for any state of the
artifact files. -/
theorem import_hit (p : Importer) (w : World) (k : String) (pkg : TypesPackage)
    (hl : lookupAssoc p.loaded k = some pkg) (hc : pkg.complete = true) :
    p.Import w k = (p, .ok pkg) := by
  simp [Importer.Import, hl, hc]

/-- A successful load through the artifact map leaves a complete entry
for the path in the cache, equal to the returned package. -/
theorem loadPkgExport_ok_cached (p : Importer) (w : World) (exp k : String)
    (p1 : Importer) (pkg : TypesPackage)
    (h : p.loadPkgExport w exp k = (p1, .ok pkg)) :
    lookupAssoc p1.loaded k = some pkg ∧ pkg.complete = true := by
  rcases hw : lookupAssoc w.files exp with _ | art
  · simp [Importer.loadPkgExport, hw] at h
  · cases art with
    | corrupt => simp [Importer.loadPkgExport, hw] at h
    | valid i =>
      simp [Importer.loadPkgExport, hw] at h
      obtain ⟨h1, h2⟩ := h
      subst h1
      subst h2
      simp [lookupAssoc_insertAssoc_self]

/-- Any successful `Import` leaves a complete cache entry for the path,
equal to the returned package. -/
theorem import_ok_cached (p : Importer) (w : World) (k : String)
    (p1 : Importer) (pkg : TypesPackage)
    (h : p.Import w k = (p1, .ok pkg)) :
    lookupAssoc p1.loaded k = some pkg ∧ pkg.complete = true := by
  rcases hl : lookupAssoc p.loaded k with _ | ret
  · rcases ha : lookupAssoc p.pkgs k with _ | exp
    · simp [Importer.Import, hl, ha] at h
    · simp only [Importer.Import, hl, ha] at h
      exact loadPkgExport_ok_cached p w exp k p1 pkg h
  · by_cases hc : ret.complete
    · simp [Importer.Import, hl, hc] at h
      obtain ⟨h1, h2⟩ := h
      subst h1
      subst h2
      exact ⟨hl, hc⟩
    · rcases ha : lookupAssoc p.pkgs k with _ | exp
      · simp [Importer.Import, hl, hc, ha] at h
      · simp only [Importer.Import, hl, hc, ha, Bool.false_eq_true, if_false] at h
        exact loadPkgExport_ok_cached p w exp k p1 pkg h

/-- Claim C3: after a successful `Import`, importing the same path again
returns the identical cached package and leaves the importer unchanged,
whatever the artifact files then contain — in particular the artifact is
not reopened, and the second call succeeds even after the file is
deleted. -/
theorem c3_import_twice_cached (p : Importer) (w : World) (pkgPath : String)
    (p1 : Importer) (pkg : TypesPackage)
    (h : p.Import w pkgPath = (p1, .ok pkg)) :
    ∀ (w2 : World), p1.Import w2 pkgPath = (p1, .ok pkg) := by
  intro w2
  obtain ⟨hl, hc⟩ := import_ok_cached p w pkgPath p1 pkg h
  exact import_hit p1 w2 pkgPath pkg hl hc

/-- Claim C3, witness: a first `Import` decodes the artifact `f` into
package 7 and caches it; a second call with the artifact file deleted
still returns the identical package. -/
theorem c3_import_twice_cached_witness :
    Importer.Import ⟨[("p", "f")], [("p", ⟨7, true⟩)]⟩ ⟨[]⟩ "p"
      = (⟨[("p", "f")], [("p", ⟨7, true⟩)]⟩, .ok ⟨7, true⟩) :=
  c3_import_twice_cached ⟨[("p", "f")], []⟩ ⟨[("f", .valid 7)]⟩ "p"
    ⟨[("p", "f")], [("p", ⟨7, true⟩)]⟩ ⟨7, true⟩ rfl ⟨[]⟩

/-- Claim C4: a path with no complete cache entry and no artifact-map
entry fails with the `ENOENT` condition, which is distinct from both the
open-failure and the decode-failure conditions. -/
theorem c4_import_unknown (p : Importer) (w : World) (pkgPath : String)
    (hc : ∀ ret, lookupAssoc p.loaded pkgPath = some ret → ret.complete = false)
    (ha : lookupAssoc p.pkgs pkgPath = none) :
    p.Import w pkgPath = (p, .error .enoent)
    ∧ (∀ f, (ImportErr.enoent : ImportErr) ≠ ImportErr.openFail f)
    ∧ (ImportErr.enoent : ImportErr) ≠ ImportErr.decodeFail := by
  refine ⟨?_, fun f h => ImportErr.noConfusion h, fun h => ImportErr.noConfusion h⟩
  rcases hl : lookupAssoc p.loaded pkgPath with _ | ret
  · simp [Importer.Import, hl, ha]
  · have hr := hc ret hl
    simp [Importer.Import, hl, hr, ha]

/-- Claim C4, witness: the empty importer knows no path at all, and the
not-found condition differs from an open failure on the file `f` and
from the decode failure. -/
theorem c4_import_unknown_witness :
    Importer.Import ⟨[], []⟩ ⟨[]⟩ "q" = (⟨[], []⟩, .error .enoent)
    ∧ (ImportErr.enoent : ImportErr) ≠ ImportErr.openFail "f"
    ∧ (ImportErr.enoent : ImportErr) ≠ ImportErr.decodeFail :=
  ⟨(c4_import_unknown ⟨[], []⟩ ⟨[]⟩ "q"
      (fun ret h => by simp [lookupAssoc] at h) rfl).1,
   (c4_import_unknown ⟨[], []⟩ ⟨[]⟩ "q"
      (fun ret h => by simp [lookupAssoc] at h) rfl).2.1 "f",
   (c4_import_unknown ⟨[], []⟩ ⟨[]⟩ "q"
      (fun ret h => by simp [lookupAssoc] at h) rfl).2.2⟩

/-- A nil configuration given to `NewImporter` is the zero
configuration. -/
theorem newImporter_none (env : FsEnv)
    (deps : String → List String → Except Unit (List (String × String)))
    (pattern : List String) :
    NewImporter none env deps pattern = NewImporter (some zeroConfig) env deps pattern := rfl

/-- A successfully constructed importer carries the caller-supplied (or
fresh) cache with the built-in package written over the reserved key. -/
theorem newImporter_ok_loaded (c : Config) (env : FsEnv)
    (deps : String → List String → Except Unit (List (String × String)))
    (pattern : List String) (p : Importer) (pkgPaths : List String)
    (h : NewImporter (some c) env deps pattern = (some p, pkgPaths, none)) :
    p.loaded = insertAssoc (c.Loaded.getD []) "unsafe" typesUnsafe := by
  rcases hlp : listPackages (some c) env pattern with ⟨lp, eOpt⟩
  cases eOpt with
  | some e => simp [NewImporter, hlp] at h
  | none =>
    rcases hld : deps c.getTempDir lp with eu | pkgs
    · simp [NewImporter, hlp, hld] at h
    · simp [NewImporter, hlp, hld] at h
      obtain ⟨h1, h2⟩ := h
      subst h1
      rfl

/-- Claim C9: any importer returned by `NewImporter` resolves the
reserved path `unsafe` to the built-in package from the seeded cache, for
every artifact-file state — the artifact map is never consulted, so this
holds in particular when that map is empty. -/
theorem c9_unsafe_always_loaded (conf : Option Config) (env : FsEnv)
    (deps : String → List String → Except Unit (List (String × String)))
    (pattern : List String) (p : Importer) (pkgPaths : List String)
    (h : NewImporter conf env deps pattern = (some p, pkgPaths, none)) :
    ∀ (w : World), p.Import w "unsafe" = (p, .ok typesUnsafe) := by
  intro w
  have hload : ∃ l, p.loaded = insertAssoc l "unsafe" typesUnsafe := by
    cases conf with
    | none =>
      exact ⟨zeroConfig.Loaded.getD [], newImporter_ok_loaded zeroConfig env deps pattern
        p pkgPaths ((newImporter_none env deps pattern).symm.trans h)⟩
    | some c0 =>
      exact ⟨c0.Loaded.getD [], newImporter_ok_loaded c0 env deps pattern p pkgPaths h⟩
  obtain ⟨l, hl⟩ := hload
  refine import_hit p w "unsafe" typesUnsafe ?_ rfl
  rw [hl, lookupAssoc_insertAssoc_self]

/-- Claim C9, witness: a nil-configuration importer over no patterns and
an empty artifact map still imports the reserved path. -/
theorem c9_unsafe_always_loaded_witness :
    Importer.Import ⟨[], [("unsafe", typesUnsafe)]⟩ ⟨[]⟩ "unsafe"
      = (⟨[], [("unsafe", typesUnsafe)]⟩, .ok typesUnsafe) :=
  c9_unsafe_always_loaded none badEnv (fun _ _ => .ok []) []
    ⟨[], [("unsafe", typesUnsafe)]⟩ [] rfl ⟨[]⟩

/-- Claim C10: a nil configuration pointer behaves exactly as a fresh
zero-value configuration, for both `List` and `NewImporter`, on every
pattern list — neither panics, both being total functions of the model
with the nil case replaced by the zero value up front. -/
theorem c10_nil_conf_defaults :
    (∀ (env : FsEnv) (pattern : List String),
       listPackages none env pattern = listPackages (some zeroConfig) env pattern)
    ∧ (∀ (env : FsEnv)
         (deps : String → List String → Except Unit (List (String × String)))
         (pattern : List String),
       NewImporter none env deps pattern = NewImporter (some zeroConfig) env deps pattern) :=
  ⟨fun _ _ => rfl, fun _ _ _ => rfl⟩
